import Mathlib

/-!
Verification of the operation-normalization engine of the chain-connectors
repository.  The Rust sources embedded here are
`chains/ethereum/server/src/utils.rs` (fee operations, trace flattening and
trace operations, block rewards) and `chains/polkadot/server/src/block.rs`
(event-based operation extraction).

Modelling conventions:
* `U256` / `U64` / `u128` values are modelled as `Nat`; the two places
  where unsigned subtraction can underflow (and hence panic in Rust) — the
  miner-earned fee subtraction and the uncle-reward depth subtraction —
  are modelled explicitly by a `panic` outcome.  `u64` truncation
  (`as_u64`, `as u8`) is modelled as `% 2 ^ 64` / `% 256`.
* `i64` operation indices are modelled as `Int`.
* Addresses and hashes are modelled as `String`; the external address
  formatting collaborators (`to_checksum`, `hex::encode`,
  `Address::from_public_key_bytes`) are out of scope per the spec and are
  modelled as the identity, resp. an abstract formatting parameter.
* Fallible Rust functions returning `anyhow::Result` are modelled with
  `RustResult`, which distinguishes typed errors (`err`) from panics
  (`panic`).
* The module `eth_types` is not part of the provided sources; its constants
  (operation-kind strings, statuses, reward constants, chain config) are
  modelled from the spec as explicit definitions and parameters.
-/

namespace ChainConnectors

/-- Outcome of a fallible Rust computation: `ok` for `Ok`, `err` for a typed
`anyhow` error, `panic` for a Rust panic (e.g. `unwrap` on `None`,
arithmetic underflow). -/
inductive RustResult (α : Type) where
  | ok (val : α)
  | err (msg : String)
  | panic (msg : String)
deriving DecidableEq, Repr

/-- Modelled from the spec: operation-kind and status string constants from
the missing `eth_types` module (spec §3 lists the kinds
fee/call/create/selfdestruct/mining_reward/uncle_reward/destruct). -/
def SUCCESS_STATUS : String := "SUCCESS"

/-- Failure status constant (modelled from the spec, `eth_types` missing). -/
def FAILURE_STATUS : String := "FAILURE"

/-- Call trace-entry kind constant (modelled from the spec). -/
def CALL_OP_TYPE : String := "CALL"

/-- Create trace-entry kind constant (modelled from the spec). -/
def CREATE_OP_TYPE : String := "CREATE"

/-- Create2 trace-entry kind constant (modelled from the spec). -/
def CREATE2_OP_TYPE : String := "CREATE2"

/-- Self-destruct trace-entry kind constant (modelled from the spec). -/
def SELF_DESTRUCT_OP_TYPE : String := "SELFDESTRUCT"

/-- Destruct catch-up operation kind constant (modelled from the spec). -/
def DESTRUCT_OP_TYPE : String := "DESTRUCT"

/-- Fee operation kind constant (modelled from the spec). -/
def FEE_OP_TYPE : String := "FEE"

/-- Mining-reward operation kind constant (modelled from the spec). -/
def MINING_REWARD_OP_TYPE : String := "MINER_REWARD"

/-- Uncle-reward operation kind constant (modelled from the spec). -/
def UNCLE_REWARD_OP_TYPE : String := "UNCLE_REWARD"

/-- `rosetta_types::Currency`. -/
structure Currency where
  symbol : String
  decimals : Nat
deriving DecidableEq, Repr

/-- `rosetta_types::OperationIdentifier`. -/
structure OperationIdentifier where
  index : Int
  network_index : Option Int
deriving DecidableEq, Repr

/-- `rosetta_types::AccountIdentifier` (sub-account and metadata are always
`None` in this code base and are omitted). -/
structure AccountIdentifier where
  address : String
deriving DecidableEq, Repr

/-- `rosetta_types::Amount` (its metadata is always `None` and omitted). -/
structure Amount where
  value : String
  currency : Currency
deriving DecidableEq, Repr

/-- `rosetta_types::Operation`.  The `metadata` field is modelled as an
optional list of string pairs: the ethereum code builds a
`HashMap<String, String>` error map, the polkadot code attaches a list of
field-descriptor pairs (name, type name). -/
structure Operation where
  operation_identifier : OperationIdentifier
  related_operations : Option (List OperationIdentifier)
  type : String
  status : Option String
  account : Option AccountIdentifier
  amount : Option Amount
  metadata : Option (List (String × String))
deriving DecidableEq, Repr

/-- `rosetta_types::TransactionIdentifier`. -/
structure TransactionIdentifier where
  hash : String
deriving DecidableEq, Repr

/-- `rosetta_types::Transaction`; `related_transactions` is always `None`,
`metadata` is reduced to presence (the ethereum path stores a JSON blob of
gas data, the other paths store `None`). -/
structure RosettaTransaction where
  transaction_identifier : TransactionIdentifier
  operations : List Operation
  metadata_present : Bool
deriving DecidableEq, Repr

/-- The recursive call-trace tree (`eth_types::Trace`, fields as used by
`get_trace_operations`): from/to addresses, transferred value, trace kind,
revert flag, error message, nested calls. -/
inductive Trace where
  | mk (from_addr : String) (to_addr : String) (value : Nat)
      (trace_type : String) (revert : Bool) (error_message : String)
      (calls : List Trace)

/-- Source address of a trace node. -/
def Trace.from_addr : Trace → String
  | .mk f _ _ _ _ _ _ => f

/-- Destination address of a trace node. -/
def Trace.to_addr : Trace → String
  | .mk _ t _ _ _ _ _ => t

/-- Transferred value of a trace node. -/
def Trace.value : Trace → Nat
  | .mk _ _ v _ _ _ _ => v

/-- Kind of a trace node. -/
def Trace.trace_type : Trace → String
  | .mk _ _ _ ty _ _ _ => ty

/-- Revert flag of a trace node. -/
def Trace.revert : Trace → Bool
  | .mk _ _ _ _ r _ _ => r

/-- Error message of a trace node. -/
def Trace.error_message : Trace → String
  | .mk _ _ _ _ _ e _ => e

/-- Child calls of a trace node. -/
def Trace.calls : Trace → List Trace
  | .mk _ _ _ _ _ _ c => c

mutual
/-- Number of nodes of a trace tree. -/
def Trace.size : Trace → Nat
  | .mk _ _ _ _ _ _ calls => 1 + Trace.sizeList calls

/-- Total number of nodes of a list of trace trees. -/
def Trace.sizeList : List Trace → Nat
  | [] => 0
  | t :: ts => Trace.size t + Trace.sizeList ts
end

/-- `eth_types::FlattenTrace`: one flattened trace entry (a trace node with
its children dropped). -/
structure FlattenTrace where
  from_addr : String
  to_addr : String
  value : Nat
  trace_type : String
  revert : Bool
  error_message : String
deriving DecidableEq, Repr

/-- `FlattenTrace::from(trace)`: drop the children. -/
def FlattenTrace.ofTrace (t : Trace) : FlattenTrace :=
  ⟨t.from_addr, t.to_addr, t.value, t.trace_type, t.revert, t.error_message⟩

/-- The child adjustment performed by the flattening loop of
`get_trace_operations` before a child is enqueued: if the parent is
reverted, the child is forced to reverted and, when its own error message
is empty, inherits the parent's. -/
def adjustChild (t c : Trace) : Trace :=
  if t.revert then
    .mk c.from_addr c.to_addr c.value c.trace_type true
      (if c.error_message = "" then t.error_message else c.error_message)
      c.calls
  else c

theorem sizeList_append (l1 l2 : List Trace) :
    Trace.sizeList (l1 ++ l2) = Trace.sizeList l1 + Trace.sizeList l2 := by
  induction l1 with
  | nil => simp [Trace.sizeList]
  | cons t ts ih => simp [Trace.sizeList, ih]; omega

theorem size_adjustChild (t c : Trace) :
    Trace.size (adjustChild t c) = Trace.size c := by
  cases c with
  | mk f t2 v ty r e calls =>
    unfold adjustChild
    split <;> simp [Trace.size, Trace.calls]

theorem sizeList_map_adjustChild (t : Trace) (l : List Trace) :
    Trace.sizeList (l.map (adjustChild t)) = Trace.sizeList l := by
  induction l with
  | nil => rfl
  | cons c cs ih => simp [Trace.sizeList, ih, size_adjustChild]

theorem size_pos (t : Trace) : 0 < Trace.size t := by
  cases t with
  | mk f t2 v ty r e calls => simp [Trace.size]

theorem size_eq (t : Trace) : Trace.size t = 1 + Trace.sizeList t.calls := by
  cases t with
  | mk f t2 v ty r e calls => simp [Trace.size, Trace.calls]

/-- The queue-based (breadth-first) flattening loop of
`get_trace_operations`: pop a trace from the front, adjust and enqueue its
children at the back, output the flattened node. -/
def flattenBFS (q : List Trace) : List FlattenTrace :=
  match q with
  | [] => []
  | t :: rest =>
      FlattenTrace.ofTrace t :: flattenBFS (rest ++ t.calls.map (adjustChild t))
termination_by Trace.sizeList q
decreasing_by
  simp only [sizeList_append, sizeList_map_adjustChild, Trace.sizeList]
  have h1 := size_eq t
  omega

/-- `SubtreeAdj s t`: `s` is a node discovered when flattening the tree `t`,
i.e. `t` itself or, recursively, a discovered node of an adjusted child of
`t`. -/
inductive SubtreeAdj : Trace → Trace → Prop where
  | refl (t : Trace) : SubtreeAdj t t
  | step {s c t : Trace} :
      c ∈ t.calls → SubtreeAdj s (adjustChild t c) → SubtreeAdj s t

theorem length_flattenBFS (q : List Trace) :
    (flattenBFS q).length = Trace.sizeList q := by
  induction q using flattenBFS.induct with
  | case1 => simp [flattenBFS, Trace.sizeList]
  | case2 t rest ih =>
      rw [flattenBFS]
      simp [ih, sizeList_append, sizeList_map_adjustChild, Trace.sizeList]
      have h1 := size_eq t
      omega

theorem flattenBFS_mem_subtree (q : List Trace) :
    ∀ e ∈ flattenBFS q, ∃ t ∈ q, ∃ s, SubtreeAdj s t ∧ e = FlattenTrace.ofTrace s := by
  induction q using flattenBFS.induct with
  | case1 => simp [flattenBFS]
  | case2 t rest ih =>
      intro e he
      rw [flattenBFS] at he
      rcases List.mem_cons.mp he with h | h
      · exact ⟨t, List.mem_cons_self t rest, t, SubtreeAdj.refl t, h⟩
      · rcases ih e h with ⟨t2, ht2, s, hs, he2⟩
        rcases List.mem_append.mp ht2 with h2 | h2
        · exact ⟨t2, List.mem_cons_of_mem t h2, s, hs, he2⟩
        · rcases List.mem_map.mp h2 with ⟨c, hc, hadj⟩
          exact ⟨t, List.mem_cons_self t rest, s,
            SubtreeAdj.step hc (hadj ▸ hs), he2⟩

theorem adjustChild_revert (t c : Trace) (h : t.revert = true) :
    (adjustChild t c).revert = true ∧
      (adjustChild t c).error_message =
        (if c.error_message = "" then t.error_message else c.error_message) := by
  unfold adjustChild
  rw [h]
  simp [Trace.revert, Trace.error_message]

theorem subtreeAdj_revert {d s : Trace} (h : SubtreeAdj d s)
    (hr : s.revert = true) : d.revert = true := by
  induction h with
  | refl => exact hr
  | step hc _ ih => exact ih (adjustChild_revert _ _ hr).1

theorem subtreeAdj_error_message {d s : Trace} (h : SubtreeAdj d s)
    (hr : s.revert = true) (hm : s.error_message ≠ "") :
    d.error_message ≠ "" := by
  induction h with
  | refl => exact hm
  | step hc _ ih =>
      rcases adjustChild_revert _ _ hr with ⟨h1, h2⟩
      refine ih h1 ?_
      rw [h2]
      split
      · exact hm
      · assumption

/-- The fields of `ethers::types::Block` used by the embedded functions.
Addresses and hashes are strings, `U256`/`U64` values are `Nat`. -/
structure EthBlock where
  author : Option String
  base_fee_per_gas : Option Nat
  hash : Option String
  number : Option Nat
deriving DecidableEq, Repr

/-- The fields of `ethers::types::Transaction` used by the embedded
functions. -/
structure EthTx where
  hash : String
  from_addr : String
  transaction_type : Option Nat
  gas_price : Option Nat
  max_priority_fee_per_gas : Option Nat
deriving DecidableEq, Repr

/-- The fields of `ethers::types::TransactionReceipt` used by the embedded
functions. -/
structure EthReceipt where
  block_hash : Option String
  gas_used : Option Nat
deriving DecidableEq, Repr

/-- `get_fee_operations` from `chains/ethereum/server/src/utils.rs`.
The `U256` subtraction `fee_amount - fee_burned` panics in Rust when it
underflows; the underflow check is made explicit here and reported as a
`panic` outcome.  `to_checksum` is modelled as the identity on the address
strings. -/
def get_fee_operations (block : EthBlock) (tx : EthTx) (receipt : EthReceipt)
    (currency : Currency) : RustResult (List Operation) :=
  match block.author with
  | none => .err "block has no author"
  | some miner =>
  match block.base_fee_per_gas with
  | none => .err "block has no base fee"
  | some base_fee =>
  match tx.transaction_type with
  | none => .err "transaction type unavailable"
  | some tx_type =>
  match tx.gas_price with
  | none => .err "gas price is not available"
  | some tx_gas_price =>
  let tx_max_priority_fee_per_gas := tx.max_priority_fee_per_gas.getD 0
  match receipt.gas_used with
  | none => .err "gas used is not available"
  | some gas_used =>
  let gas_price :=
    if tx_type = 2 then base_fee + tx_max_priority_fee_per_gas
    else tx_gas_price
  let fee_amount := gas_used * gas_price
  let fee_burned := gas_used * base_fee
  if fee_amount < fee_burned then .panic "attempt to subtract with overflow"
  else
    let miner_earned_reward := fee_amount - fee_burned
    let first_op : Operation :=
      { operation_identifier := ⟨0, none⟩
        related_operations := none
        type := FEE_OP_TYPE
        status := some SUCCESS_STATUS
        account := some ⟨tx.from_addr⟩
        amount := some ⟨"-" ++ Nat.repr miner_earned_reward, currency⟩
        metadata := none }
    let second_op : Operation :=
      { operation_identifier := ⟨1, none⟩
        related_operations := some [⟨0, none⟩]
        type := FEE_OP_TYPE
        status := some SUCCESS_STATUS
        account := some ⟨miner⟩
        amount := some ⟨Nat.repr miner_earned_reward, currency⟩
        metadata := none }
    if fee_burned ≠ 0 then
      let burned_operation : Operation :=
        { operation_identifier := ⟨2, none⟩
          related_operations := none
          type := FEE_OP_TYPE
          status := some SUCCESS_STATUS
          account := some ⟨tx.from_addr⟩
          amount := some ⟨"-" ++ Nat.repr fee_burned, currency⟩
          metadata := none }
      .ok [first_op, second_op, burned_operation]
    else .ok [first_op, second_op]

/-- State threaded through the per-entry loop of `get_trace_operations`:
the operations emitted so far and the destroyed-accounts map (modelled as
an association list with `HashMap` insert/remove semantics; the iteration
order of the drain loop is the list order). -/
structure TraceOpState where
  operations : List Operation
  destroyed_accs : List (String × Nat)
deriving DecidableEq, Repr

/-- `HashMap::get`. -/
def lookupAcc : List (String × Nat) → String → Option Nat
  | [], _ => none
  | (k, v) :: rest, key => if k = key then some v else lookupAcc rest key

/-- `HashMap::insert` (replace an existing binding, else append). -/
def insertAcc : List (String × Nat) → String → Nat → List (String × Nat)
  | [], key, val => [(key, val)]
  | (k, v) :: rest, key, val =>
      if k = key then (key, val) :: rest else (k, v) :: insertAcc rest key val

/-- `HashMap::remove`. -/
def eraseAcc : List (String × Nat) → String → List (String × Nat)
  | [], _ => []
  | (k, v) :: rest, key =>
      if k = key then rest else (k, v) :: eraseAcc rest key

/-- Index of the last pushed operation, `operations[operations.len() - 1]`;
reading it from an empty vector is a Rust panic, modelled as `0` (the code
never reaches that case). -/
def lastOpIndex (ops : List Operation) : Int :=
  match ops.getLast? with
  | some op => op.operation_identifier.index
  | none => 0

/-- The drain loop at the end of each trace-entry iteration: for every
binding of the destroyed-accounts map with a nonzero pending magnitude,
push one `DESTRUCT` operation (the map itself is not modified by the
loop in the source). -/
def drainLoop (currency : Currency) :
    List (String × Nat) → List Operation → List Operation
  | [], ops => ops
  | (k, v) :: rest, ops =>
      if v = 0 then drainLoop currency rest ops
      else
        drainLoop currency rest (ops ++
          [{ operation_identifier := ⟨lastOpIndex ops + 1, none⟩
             related_operations := none
             type := DESTRUCT_OP_TYPE
             status := some SUCCESS_STATUS
             account := some ⟨k⟩
             amount := some ⟨"-" ++ Nat.repr v, currency⟩
             metadata := none }])

/-- One iteration of the per-entry loop of `get_trace_operations` for the
flattened entry `tr`, with `op_len` the caller-supplied starting index.
`to_checksum` is modelled as the identity, `value.as_u64()` as
`% 2 ^ 64`. -/
def processTrace (currency : Currency) (op_len : Int) (st : TraceOpState)
    (tr : FlattenTrace) : TraceOpState :=
  let operation_status := if tr.revert then FAILURE_STATUS else SUCCESS_STATUS
  let zero_value := tr.value = 0
  let should_add := ¬(zero_value ∧ tr.trace_type = CALL_OP_TYPE)
  let from_addr := tr.from_addr
  let to_addr := tr.to_addr
  let st1 :=
    if should_add then
      let from_operation : Operation :=
        { operation_identifier := ⟨op_len + st.operations.length, none⟩
          related_operations := none
          type := tr.trace_type
          status := some operation_status
          account := some ⟨from_addr⟩
          amount :=
            if zero_value then none
            else some ⟨"-" ++ Nat.repr tr.value, currency⟩
          metadata := none }
      let accs :=
        if zero_value then st.destroyed_accs
        else
          match lookupAcc st.destroyed_accs from_addr with
          | some d_from =>
              if operation_status = SUCCESS_STATUS then
                insertAcc st.destroyed_accs from_addr
                  (d_from - tr.value % 2 ^ 64)
              else st.destroyed_accs
          | none => st.destroyed_accs
      TraceOpState.mk (st.operations ++ [from_operation]) accs
    else st
  if tr.trace_type = SELF_DESTRUCT_OP_TYPE ∧ from_addr = to_addr then st1
  else if to_addr = "" then st1
  else
    let accs2 :=
      if tr.trace_type = CREATE_OP_TYPE ∨ tr.trace_type = CREATE2_OP_TYPE then
        eraseAcc st1.destroyed_accs to_addr
      else st1.destroyed_accs
    let st2 :=
      if should_add then
        let last_op_index := lastOpIndex st1.operations
        let to_op : Operation :=
          { operation_identifier := ⟨last_op_index + 1, none⟩
            related_operations := some [⟨last_op_index, none⟩]
            type := tr.trace_type
            status := some operation_status
            account := some ⟨to_addr⟩
            amount :=
              if zero_value then none
              else some ⟨Nat.repr tr.value, currency⟩
            metadata := none }
        let accs3 :=
          if zero_value then accs2
          else
            match lookupAcc accs2 to_addr with
            | some d_to =>
                if operation_status = SUCCESS_STATUS then
                  insertAcc accs2 to_addr (d_to + tr.value % 2 ^ 64)
                else accs2
            | none => accs2
        TraceOpState.mk (st1.operations ++ [to_op]) accs3
      else TraceOpState.mk st1.operations accs2
    TraceOpState.mk (drainLoop currency st2.destroyed_accs st2.operations)
      st2.destroyed_accs

/-- The loop of `get_trace_operations` over the flattened entries. -/
def traceOpsFold (currency : Currency) (op_len : Int)
    (entries : List FlattenTrace) : TraceOpState :=
  entries.foldl (processTrace currency op_len) ⟨[], []⟩

/-- `get_trace_operations` from `chains/ethereum/server/src/utils.rs`:
flatten the trace tree breadth-first with revert propagation, then emit
operations per flattened entry.  (The early return on an empty flattened
list produces the same empty output as the fold.) -/
def get_trace_operations (trace : Trace) (op_len : Int)
    (currency : Currency) : List Operation :=
  (traceOpsFold currency op_len (flattenBFS [trace])).operations

/-- The operations emitted for one flattened entry when the
destroyed-accounts map is empty (which, as proved below, it always is):
a from-side operation and possibly a to-side operation, with indices
continuing from `op_len + curLen` where `curLen` is the number of
operations already emitted. -/
def entryOps (currency : Currency) (op_len : Int) (curLen : Nat)
    (tr : FlattenTrace) : List Operation :=
  let operation_status := if tr.revert then FAILURE_STATUS else SUCCESS_STATUS
  let zero_value := tr.value = 0
  let should_add := ¬(zero_value ∧ tr.trace_type = CALL_OP_TYPE)
  let fromOps : List Operation :=
    if should_add then
      [{ operation_identifier := ⟨op_len + curLen, none⟩
         related_operations := none
         type := tr.trace_type
         status := some operation_status
         account := some ⟨tr.from_addr⟩
         amount :=
           if zero_value then none
           else some ⟨"-" ++ Nat.repr tr.value, currency⟩
         metadata := none }]
    else []
  if tr.trace_type = SELF_DESTRUCT_OP_TYPE ∧ tr.from_addr = tr.to_addr then
    fromOps
  else if tr.to_addr = "" then fromOps
  else
    fromOps ++
      (if should_add then
        [{ operation_identifier := ⟨op_len + curLen + 1, none⟩
           related_operations := some [⟨op_len + curLen, none⟩]
           type := tr.trace_type
           status := some operation_status
           account := some ⟨tr.to_addr⟩
           amount :=
             if zero_value then none
             else some ⟨Nat.repr tr.value, currency⟩
           metadata := none }]
      else [])

/-- The emitted operations of the whole loop, described via `entryOps`. -/
def opsAccum (currency : Currency) (op_len : Int) :
    List Operation → List FlattenTrace → List Operation
  | acc, [] => acc
  | acc, tr :: rest =>
      opsAccum currency op_len
        (acc ++ entryOps currency op_len acc.length tr) rest

theorem processTrace_empty_map (currency : Currency) (op_len : Int)
    (ops : List Operation) (tr : FlattenTrace) :
    processTrace currency op_len ⟨ops, []⟩ tr =
      ⟨ops ++ entryOps currency op_len ops.length tr, []⟩ := by
  unfold processTrace entryOps
  simp only [lookupAcc, eraseAcc, drainLoop]
  split_ifs <;>
    simp_all [drainLoop, lookupAcc, eraseAcc, lastOpIndex, List.getLast?_append]

theorem traceOpsFold_eq_opsAccum (currency : Currency) (op_len : Int)
    (entries : List FlattenTrace) (acc : List Operation) :
    List.foldl (processTrace currency op_len) ⟨acc, []⟩ entries =
      ⟨opsAccum currency op_len acc entries, []⟩ := by
  induction entries generalizing acc with
  | nil => simp [opsAccum]
  | cons tr rest ih =>
      rw [List.foldl_cons, processTrace_empty_map, opsAccum, ih]

theorem traceOpsFold_spec (currency : Currency) (op_len : Int)
    (entries : List FlattenTrace) :
    traceOpsFold currency op_len entries =
      ⟨opsAccum currency op_len [] entries, []⟩ :=
  traceOpsFold_eq_opsAccum currency op_len entries []

theorem entryOps_status_metadata_type (currency : Currency) (op_len : Int)
    (curLen : Nat) (tr : FlattenTrace) :
    ∀ op ∈ entryOps currency op_len curLen tr,
      op.status = some (if tr.revert then FAILURE_STATUS else SUCCESS_STATUS) ∧
        op.metadata = none ∧ op.type = tr.trace_type := by
  intro op hop
  unfold entryOps at hop
  by_cases hz : tr.value = 0 <;>
    by_cases hc : tr.trace_type = CALL_OP_TYPE <;>
    by_cases hsd : tr.trace_type = SELF_DESTRUCT_OP_TYPE <;>
    by_cases hft : tr.from_addr = tr.to_addr <;>
    by_cases hto : tr.to_addr = "" <;>
    simp_all [CALL_OP_TYPE, SELF_DESTRUCT_OP_TYPE] <;>
    rcases hop with h | h <;> simp [h]

theorem entryOps_zero_call (currency : Currency) (op_len : Int)
    (curLen : Nat) (tr : FlattenTrace) (h1 : tr.value = 0)
    (h2 : tr.trace_type = CALL_OP_TYPE) :
    entryOps currency op_len curLen tr = [] := by
  unfold entryOps
  have h3 : ¬(tr.trace_type = SELF_DESTRUCT_OP_TYPE ∧
      tr.from_addr = tr.to_addr) := by
    rw [h2]
    simp [CALL_OP_TYPE, SELF_DESTRUCT_OP_TYPE]
  simp [h1, h2, h3]

theorem entryOps_index (currency : Currency) (op_len : Int) (curLen : Nat)
    (tr : FlattenTrace) :
    ∀ j (hj : j < (entryOps currency op_len curLen tr).length),
      ((entryOps currency op_len curLen tr).get ⟨j, hj⟩).operation_identifier.index
        = op_len + curLen + j := by
  intro j
  unfold entryOps
  by_cases hz : tr.value = 0 <;>
    by_cases hc : tr.trace_type = CALL_OP_TYPE <;>
    by_cases hsd : tr.trace_type = SELF_DESTRUCT_OP_TYPE <;>
    by_cases hft : tr.from_addr = tr.to_addr <;>
    by_cases hto : tr.to_addr = "" <;>
    simp_all [CALL_OP_TYPE, SELF_DESTRUCT_OP_TYPE] <;>
    rcases j with _ | _ | j <;> intro hj <;> simp_all <;> omega

theorem opsAccum_index (currency : Currency) (op_len : Int)
    (entries : List FlattenTrace) :
    ∀ acc : List Operation,
      (∀ (j : Nat) (hj : j < acc.length),
        (acc.get ⟨j, hj⟩).operation_identifier.index = op_len + (j : Int)) →
      ∀ (j : Nat) (hj : j < (opsAccum currency op_len acc entries).length),
        ((opsAccum currency op_len acc entries).get
            ⟨j, hj⟩).operation_identifier.index = op_len + (j : Int) := by
  induction entries with
  | nil => intro acc hacc; exact hacc
  | cons tr rest ih =>
      intro acc hacc
      rw [opsAccum]
      refine ih _ ?_
      intro j hj
      rcases Nat.lt_or_ge j acc.length with h | h
      · have h2 := hacc j h
        simp only [List.get_eq_getElem] at h2 ⊢
        rw [List.getElem_append_left h]
        exact h2
      · have hj2 : j - acc.length <
            (entryOps currency op_len acc.length tr).length := by
          simp only [List.length_append] at hj
          omega
        have h4 := entryOps_index currency op_len acc.length tr
          (j - acc.length) hj2
        simp only [List.get_eq_getElem] at h4 ⊢
        rw [List.getElem_append_right h]
        rw [h4]
        omega

/-- The ethereum `get_transaction` from
`chains/ethereum/server/src/utils.rs`, with the RPC-fetched receipt and
trace passed as inputs (the fetch layer is out of scope per the spec).
`block.hash.unwrap()` and `block.number.unwrap()` are panics when the
field is absent.  The metadata JSON blob is modelled by its presence. -/
def eth_get_transaction (currency : Currency) (block : EthBlock)
    (tx : EthTx) (tx_receipt : EthReceipt) (trace : Trace) :
    RustResult RosettaTransaction :=
  match tx_receipt.block_hash with
  | none => .err "Block hash not found in tx receipt"
  | some receipt_block_hash =>
  match block.hash with
  | none => .panic "called Option unwrap on a None value"
  | some block_hash =>
  if receipt_block_hash ≠ block_hash then
    .err "Transaction receipt block hash does not match block hash"
  else
    match get_fee_operations block tx tx_receipt currency with
    | .err m => .err m
    | .panic m => .panic m
    | .ok fee_ops =>
      match block.number with
      | none => .panic "called Option unwrap on a None value"
      | some block_number =>
        let operations :=
          if block_number ≠ 0 then
            fee_ops ++ get_trace_operations trace (fee_ops.length) currency
          else fee_ops
        .ok ⟨⟨tx.hash⟩, operations, true⟩

/-- Modelled from the spec: the fork-activation thresholds of the missing
`eth_types::TESTNET_CHAIN_CONFIG` (spec §4.5: thresholds are external
configuration, not computed). -/
structure ChainConfig where
  byzantium_block : Nat
  constantinople_block : Nat
deriving DecidableEq, Repr

/-- Modelled from the spec: the reward constants of the missing `eth_types`
module (spec §4.5: each threshold maps to a fixed base reward constant;
`MAX_UNCLE_DEPTH` and `UNCLE_REWARD_MULTIPLIER` are external
configuration). -/
structure RewardConstants where
  frontier_reward : Nat
  byzantium_reward : Nat
  constantinople_reward : Nat
  max_uncle_depth : Nat
  uncle_reward_multiplier : Nat
deriving DecidableEq, Repr

/-- An uncle block as used by `block_reward_transaction`: its author and
number may be absent. -/
structure EthUncle where
  author : Option String
  number : Option Nat
deriving DecidableEq, Repr

/-- The per-uncle loop of `block_reward_transaction`: `idx` is
`operations.len()` at loop entry (1 after the mining-reward operation).
A missing uncle author or number aborts the whole computation with a
typed error.  The `U64` subtraction
`uncle_number + MAX_UNCLE_DEPTH - block_number` panics in Rust when it
underflows (an uncle deeper than `MAX_UNCLE_DEPTH`); that underflow check
is made explicit here and reported as a `panic` outcome. -/
def uncleOps (currency : Currency) (rc : RewardConstants)
    (block_number mining_reward : Nat) :
    Nat → List EthUncle → RustResult (List Operation)
  | _, [] => .ok []
  | idx, u :: rest =>
    match u.author with
    | none => .err "Uncle block has no author"
    | some uncle_miner =>
    match u.number with
    | none => .err "Uncle block has no number"
    | some uncle_number =>
      if uncle_number + rc.max_uncle_depth < block_number then
        .panic "attempt to subtract with overflow"
      else
      let uncle_block_reward :=
        (uncle_number + rc.max_uncle_depth - block_number) *
          (mining_reward / rc.max_uncle_depth)
      let operation : Operation :=
        { operation_identifier := ⟨idx, none⟩
          related_operations := none
          type := UNCLE_REWARD_OP_TYPE
          status := some SUCCESS_STATUS
          account := some ⟨uncle_miner⟩
          amount := some ⟨Nat.repr uncle_block_reward, currency⟩
          metadata := none }
      match uncleOps currency rc block_number mining_reward (idx + 1) rest with
      | .ok rest_ops => .ok (operation :: rest_ops)
      | .err m => .err m
      | .panic m => .panic m

/-- `block_reward_transaction` from `chains/ethereum/server/src/utils.rs`,
with the RPC-fetched uncle blocks passed as input.  Note the source reads
`block.author.unwrap()`: a missing author is a panic, not a typed error.
The reward schedule and the uncle-boost formula follow the source line for
line. -/
def block_reward_transaction (cc : ChainConfig) (rc : RewardConstants)
    (currency : Currency) (block : EthBlock) (uncles : List EthUncle) :
    RustResult RosettaTransaction :=
  match block.number with
  | none => .err "missing block number"
  | some block_number =>
  match block.hash with
  | none => .err "missing block hash"
  | some block_hash =>
  match block.author with
  | none => .panic "called Option unwrap on a None value"
  | some miner =>
    let reward_after_byzantium :=
      if cc.byzantium_block ≤ block_number then rc.byzantium_reward
      else rc.frontier_reward
    let reward_after_constantinople :=
      if cc.constantinople_block ≤ block_number then rc.constantinople_reward
      else reward_after_byzantium
    let mining_reward :=
      if uncles ≠ [] then
        reward_after_constantinople +
          (reward_after_constantinople / rc.uncle_reward_multiplier) *
            reward_after_constantinople
      else reward_after_constantinople
    let mining_reward_operation : Operation :=
      { operation_identifier := ⟨0, none⟩
        related_operations := none
        type := MINING_REWARD_OP_TYPE
        status := some SUCCESS_STATUS
        account := some ⟨miner⟩
        amount := some ⟨Nat.repr mining_reward, currency⟩
        metadata := none }
    match uncleOps currency rc block_number mining_reward 1 uncles with
    | .ok uncle_operations =>
        .ok ⟨⟨block_hash⟩, mining_reward_operation :: uncle_operations, false⟩
    | .err m => .err m
    | .panic m => .panic m

/-- A decoded SCALE value as used by the polkadot event extractor
(`subxt::ext::scale_value::ValueDef`): an unsigned 128-bit primitive, a
named or unnamed composite, or any other shape. -/
inductive ScaleValue where
  | primU128 (n : Nat)
  | named (fields : List (String × ScaleValue))
  | unnamed (vals : List ScaleValue)
  | other

/-- `Composite::values()`: the values of a named or unnamed composite. -/
def compositeValues : ScaleValue → Option (List ScaleValue)
  | .named fields => some (fields.map (fun kv => kv.2))
  | .unnamed vals => some vals
  | _ => none

/-- The inner loop of `generate_address`: every value must be a `U128`
primitive, pushed as `val as u8` (truncation modulo 256). -/
def addrBytesOf : List ScaleValue → RustResult (List Nat)
  | [] => .ok []
  | .primU128 v :: rest =>
      match addrBytesOf rest with
      | .ok bs => .ok ((v % 256) :: bs)
      | .err m => .err m
      | .panic m => .panic m
  | _ :: _ => .err "invalid operation"

/-- The outer loop of `generate_address`: each element of the unnamed
composite must itself be a composite of `U128` primitives. -/
def addrBytesOuter : List ScaleValue → RustResult (List Nat)
  | [] => .ok []
  | v :: rest =>
      match compositeValues v with
      | none => .err "invalid operation"
      | some inner =>
          match addrBytesOf inner with
          | .ok bs =>
              match addrBytesOuter rest with
              | .ok bs2 => .ok (bs ++ bs2)
              | .err m => .err m
              | .panic m => .panic m
          | .err m => .err m
          | .panic m => .panic m

/-- `generate_address` from `chains/polkadot/server/src/block.rs`.  The
`Address::from_public_key_bytes` collaborator is abstracted as the
formatting parameter `fmt`. -/
def generate_address (fmt : List Nat → String) (val : ScaleValue) :
    RustResult String :=
  match val with
  | .unnamed unamed_data =>
      match addrBytesOuter unamed_data with
      | .ok addr_array => .ok (fmt addr_array)
      | .err m => .err m
      | .panic m => .panic m
  | _ => .err "invalid operation"

/-- One decoded event (`subxt::events::EventDetails`): pallet and variant
names, decoded field values, and the metadata field descriptors
(name, type name) attached to emitted operations. -/
structure EventRecord where
  pallet_name : String
  variant_name : String
  field_values : ScaleValue
  meta_fields : List (String × String)

/-- `TransactionOperationStatus` from `chains/polkadot/server/src/block.rs`. -/
structure TransactionOperationStatus where
  event_type : String
  from_addr : Option String
  to_addr : Option String
  amount : Option String
deriving DecidableEq, Repr

/-- `get_operation_data` from `chains/polkadot/server/src/block.rs`:
field-name alias scan over a named composite (first match wins); the
amount must be a `U128` primitive; any other event shape is a typed
error. -/
def get_operation_data (fmt : List Nat → String) (event : EventRecord) :
    RustResult TransactionOperationStatus :=
  let call_type := event.pallet_name ++ "." ++ event.variant_name
  match event.field_values with
  | .named value =>
      let from_data := value.filter
        (fun kv => kv.1 = "from" ∨ kv.1 = "who" ∨ kv.1 = "account")
      match from_data with
      | [] =>
          matchAmount fmt call_type value none
      | d :: _ =>
          match generate_address fmt d.2 with
          | .ok address => matchAmount fmt call_type value (some address)
          | .err m => .err m
          | .panic m => .panic m
  | _ => .err "invalid operation"
where
  /-- Amount and receiver extraction, continuing `get_operation_data`. -/
  matchAmount (fmt : List Nat → String) (call_type : String)
      (value : List (String × ScaleValue)) (sender_address : Option String) :
      RustResult TransactionOperationStatus :=
    let amount_data := value.filter
      (fun kv => kv.1 = "amount" ∨ kv.1 = "actual_fee")
    let amountRes : RustResult (Option String) :=
      match amount_data with
      | [] => .ok none
      | d :: _ =>
          match d.2 with
          | .primU128 amount => .ok (some (Nat.repr amount))
          | _ => .err "invalid operation"
    match amountRes with
    | .err m => .err m
    | .panic m => .panic m
    | .ok amount =>
        let to_data := value.filter (fun kv => kv.1 = "to")
        match to_data with
        | [] => .ok ⟨call_type, sender_address, none, amount⟩
        | d :: _ =>
            match generate_address fmt d.2 with
            | .ok address => .ok ⟨call_type, sender_address, some address, amount⟩
            | .err m => .err m
            | .panic m => .panic m

/-- The per-event block of the polkadot `get_transaction` loop: build the
(possibly negated-amount) sender operation, and a receiver operation only
when both a receiver and an amount were found.  Both operations carry the
event's own index. -/
def eventOps (fmt : List Nat → String) (currency : Currency)
    (event_index : Nat) (event : EventRecord) : RustResult (List Operation) :=
  match get_operation_data fmt event with
  | .err m => .err m
  | .panic m => .panic m
  | .ok parsed =>
      let op_metadata := event.meta_fields
      let op_from := parsed.from_addr.map (fun address =>
        AccountIdentifier.mk address)
      let op_neg_amount := parsed.amount.map (fun amount =>
        Amount.mk ("-" ++ amount) currency)
      let operation : Operation :=
        { operation_identifier := ⟨(event_index : Int), none⟩
          related_operations := none
          type := parsed.event_type
          status := none
          account := op_from
          amount := op_neg_amount
          metadata := some op_metadata }
      match parsed.to_addr, parsed.amount with
      | some to_addr, some amount =>
          .ok [operation,
            { operation_identifier := ⟨(event_index : Int), none⟩
              related_operations := none
              type := parsed.event_type
              status := none
              account := some ⟨to_addr⟩
              amount := some ⟨amount, currency⟩
              metadata := some op_metadata }]
      | _, _ => .ok [operation]

/-- The event loop of the polkadot `get_transaction` (events enumerated
from 0); any per-event error aborts the whole transaction. -/
def pdOpsLoop (fmt : List Nat → String) (currency : Currency) :
    Nat → List EventRecord → RustResult (List Operation)
  | _, [] => .ok []
  | event_index, event :: rest =>
      match eventOps fmt currency event_index event with
      | .err m => .err m
      | .panic m => .panic m
      | .ok ops =>
          match pdOpsLoop fmt currency (event_index + 1) rest with
          | .ok rest_ops => .ok (ops ++ rest_ops)
          | .err m => .err m
          | .panic m => .panic m

/-- The polkadot `get_transaction` from
`chains/polkadot/server/src/block.rs`, with the decoded events passed as
input and the extrinsic-bytes hash as `ext_hash` (hashing is a
collaborator). -/
def pd_get_transaction (fmt : List Nat → String) (currency : Currency)
    (ext_hash : String) (events : List EventRecord) :
    RustResult RosettaTransaction :=
  match pdOpsLoop fmt currency 0 events with
  | .ok operations => .ok ⟨⟨ext_hash⟩, operations, false⟩
  | .err m => .err m
  | .panic m => .panic m

theorem opsAccum_mem_type (currency : Currency) (op_len : Int)
    (entries : List FlattenTrace) :
    ∀ acc op, op ∈ opsAccum currency op_len acc entries →
      op ∈ acc ∨ ∃ tr ∈ entries, op.type = tr.trace_type := by
  induction entries with
  | nil => intro acc op hop; exact Or.inl hop
  | cons tr rest ih =>
      intro acc op hop
      rw [opsAccum] at hop
      rcases ih _ op hop with h | h
      · rcases List.mem_append.mp h with h2 | h2
        · exact Or.inl h2
        · exact Or.inr ⟨tr, List.mem_cons_self tr rest,
            ((entryOps_status_metadata_type currency op_len acc.length tr)
              op h2).2.2⟩
      · rcases h with ⟨tr2, htr2, hty⟩
        exact Or.inr ⟨tr2, List.mem_cons_of_mem tr htr2, hty⟩


/-- C1: with gas_used 21000 and base fee 10, a legacy (type-0) transaction
with gas price 20 yields exactly three fee operations: sender debit 210000
at index 0, miner credit 210000 at index 1 related to index 0, and an
unrelated sender burn debit 210000 at index 2; a type-2 transaction with
priority fee 5 yields the same three-operation shape with miner earnings
105000 (effective price 15) and burn 210000; and in general the burn
operation is present exactly when `gas_used * base_fee` is nonzero. -/
theorem claim_C1_fee_scenarios :
    (get_fee_operations ⟨some "M", some 10, none, none⟩
        ⟨"h", "S", some 0, some 20, none⟩ ⟨none, some 21000⟩ ⟨"ETH", 18⟩ =
      .ok [⟨⟨0, none⟩, none, FEE_OP_TYPE, some SUCCESS_STATUS,
            some ⟨"S"⟩, some ⟨"-" ++ Nat.repr 210000, ⟨"ETH", 18⟩⟩, none⟩,
           ⟨⟨1, none⟩, some [⟨0, none⟩], FEE_OP_TYPE, some SUCCESS_STATUS,
            some ⟨"M"⟩, some ⟨Nat.repr 210000, ⟨"ETH", 18⟩⟩, none⟩,
           ⟨⟨2, none⟩, none, FEE_OP_TYPE, some SUCCESS_STATUS,
            some ⟨"S"⟩, some ⟨"-" ++ Nat.repr 210000, ⟨"ETH", 18⟩⟩, none⟩]) ∧
    (get_fee_operations ⟨some "M", some 10, none, none⟩
        ⟨"h", "S", some 2, some 15, some 5⟩ ⟨none, some 21000⟩ ⟨"ETH", 18⟩ =
      .ok [⟨⟨0, none⟩, none, FEE_OP_TYPE, some SUCCESS_STATUS,
            some ⟨"S"⟩, some ⟨"-" ++ Nat.repr 105000, ⟨"ETH", 18⟩⟩, none⟩,
           ⟨⟨1, none⟩, some [⟨0, none⟩], FEE_OP_TYPE, some SUCCESS_STATUS,
            some ⟨"M"⟩, some ⟨Nat.repr 105000, ⟨"ETH", 18⟩⟩, none⟩,
           ⟨⟨2, none⟩, none, FEE_OP_TYPE, some SUCCESS_STATUS,
            some ⟨"S"⟩, some ⟨"-" ++ Nat.repr 210000, ⟨"ETH", 18⟩⟩, none⟩]) ∧
    (∀ (sender miner thash : String) (cur : Currency)
        (bhash rbh : Option String) (bnum : Option Nat)
        (bf gu gp ty : Nat) (pf : Option Nat) (l : List Operation),
      get_fee_operations ⟨some miner, some bf, bhash, bnum⟩
          ⟨thash, sender, some ty, some gp, pf⟩ ⟨rbh, some gu⟩ cur = .ok l →
      (gu * bf = 0 → l.length = 2) ∧ (gu * bf ≠ 0 → l.length = 3)) := by
  refine ⟨rfl, rfl, ?_⟩
  intro sender miner thash cur bhash rbh bnum bf gu gp ty pf l h
  constructor
  · intro hb
    simp [get_fee_operations, hb] at h
    rw [← h]
    simp
  · intro hb
    simp only [get_fee_operations] at h
    split at h <;> split at h <;> simp [hb] at h <;> (rw [← h]; simp)

/-- C1 witness: instantiates the burn conjunct at a zero base fee. -/
theorem claim_C1_fee_scenarios_witness :
    ([⟨⟨0, none⟩, none, FEE_OP_TYPE, some SUCCESS_STATUS,
       some ⟨"S"⟩, some ⟨"-" ++ Nat.repr 420000, ⟨"ETH", 18⟩⟩, none⟩,
      ⟨⟨1, none⟩, some [⟨0, none⟩], FEE_OP_TYPE, some SUCCESS_STATUS,
       some ⟨"M"⟩, some ⟨Nat.repr 420000, ⟨"ETH", 18⟩⟩, none⟩] :
        List Operation).length = 2 :=
  (claim_C1_fee_scenarios.2.2 "S" "M" "h" ⟨"ETH", 18⟩ none none none
    0 21000 20 0 none
    [⟨⟨0, none⟩, none, FEE_OP_TYPE, some SUCCESS_STATUS,
      some ⟨"S"⟩, some ⟨"-" ++ Nat.repr 420000, ⟨"ETH", 18⟩⟩, none⟩,
     ⟨⟨1, none⟩, some [⟨0, none⟩], FEE_OP_TYPE, some SUCCESS_STATUS,
      some ⟨"M"⟩, some ⟨Nat.repr 420000, ⟨"ETH", 18⟩⟩, none⟩] rfl).1 (by decide)


/-- Concrete reverted trace used by the C2 witness: a reverted root with
message "boom" and one non-reverted child with an empty message. -/
def demoChildC2 : Trace := .mk "b" "c" 1 "CALL" false "" []

/-- Root of the C2 witness tree. -/
def demoTraceC2 : Trace := .mk "a" "b" 5 "CALL" true "boom" [demoChildC2]

/-- C2: flattening a trace tree yields exactly `size` entries, in
breadth-first discovery order (the queue equation); every output entry is a
discovered (adjusted) node; a node marked reverted forces every one of its
discovered descendants to reverted; a child of a reverted node inherits the
parent error message exactly when its own is empty; and a nonempty error
message on a reverted node propagates to all its discovered descendants. -/
theorem claim_C2_trace_flattening (t : Trace) :
    (flattenBFS [t]).length = Trace.size t ∧
    flattenBFS [t] =
      FlattenTrace.ofTrace t :: flattenBFS (t.calls.map (adjustChild t)) ∧
    (∀ e ∈ flattenBFS [t], ∃ s, SubtreeAdj s t ∧ e = FlattenTrace.ofTrace s) ∧
    (∀ s d, SubtreeAdj s t → s.revert = true → SubtreeAdj d s →
      d.revert = true) ∧
    (∀ s c, SubtreeAdj s t → s.revert = true → c ∈ s.calls →
      (adjustChild s c).revert = true ∧
      (adjustChild s c).error_message =
        (if c.error_message = "" then s.error_message else c.error_message)) ∧
    (∀ s d, SubtreeAdj s t → s.revert = true → s.error_message ≠ "" →
      SubtreeAdj d s → d.error_message ≠ "") := by
  refine ⟨?_, ?_, ?_, ?_, ?_, ?_⟩
  · rw [length_flattenBFS]
    simp [Trace.sizeList, size_eq]
  · rw [flattenBFS]
    simp
  · intro e he
    rcases flattenBFS_mem_subtree [t] e he with ⟨t2, ht2, s, hs, hes⟩
    rcases List.mem_singleton.mp ht2 with rfl
    exact ⟨s, hs, hes⟩
  · intro s d hst hr hds
    exact subtreeAdj_revert hds hr
  · intro s c hst hr hc
    exact adjustChild_revert s c hr
  · intro s d hst hr hm hds
    exact subtreeAdj_error_message hds hr hm

/-- C2 witness: the length equation, revert forcing, and message
inheritance at a concrete two-node reverted tree. -/
theorem claim_C2_trace_flattening_witness :
    (flattenBFS [demoTraceC2]).length = Trace.size demoTraceC2 ∧
    (∃ s, SubtreeAdj s demoTraceC2 ∧
      FlattenTrace.ofTrace demoTraceC2 = FlattenTrace.ofTrace s) ∧
    Trace.revert demoTraceC2 = true ∧
    ((adjustChild demoTraceC2 demoChildC2).revert = true ∧
      (adjustChild demoTraceC2 demoChildC2).error_message =
        (if Trace.error_message demoChildC2 = ""
          then Trace.error_message demoTraceC2
          else Trace.error_message demoChildC2)) ∧
    Trace.error_message demoTraceC2 ≠ "" :=
  ⟨(claim_C2_trace_flattening demoTraceC2).1,
   (claim_C2_trace_flattening demoTraceC2).2.2.1
     (FlattenTrace.ofTrace demoTraceC2)
     (by rw [flattenBFS]; exact List.mem_cons_self _ _),
   (claim_C2_trace_flattening demoTraceC2).2.2.2.1 demoTraceC2 demoTraceC2
     (SubtreeAdj.refl _) rfl (SubtreeAdj.refl _),
   (claim_C2_trace_flattening demoTraceC2).2.2.2.2.1 demoTraceC2 demoChildC2
     (SubtreeAdj.refl _) rfl
     (by simp [demoTraceC2, Trace.calls]),
   (claim_C2_trace_flattening demoTraceC2).2.2.2.2.2 demoTraceC2 demoTraceC2
     (SubtreeAdj.refl _) rfl (by simp [demoTraceC2, Trace.error_message])
     (SubtreeAdj.refl _)⟩


theorem addrBytesOf_map (l : List Nat) :
    addrBytesOf (l.map ScaleValue.primU128) =
      .ok (l.map (fun b => b % 256)) := by
  induction l with
  | nil => rfl
  | cons b bs ih => simp [addrBytesOf, ih]

theorem generate_address_bytes (fmt : List Nat → String) (l : List Nat) :
    generate_address fmt (.unnamed [.unnamed (l.map ScaleValue.primU128)]) =
      .ok (fmt (l.map (fun b => b % 256))) := by
  simp [generate_address, addrBytesOuter, compositeValues, addrBytesOf_map]

/-- C3: an event with named fields from/amount(100)/to yields exactly two
operations: a sender debit of amount "-100" and a receiver credit of
"100", both of kind pallet.variant, both with no status, and both carrying
the event index; in the full transaction a single such event gets index 0
(its position in the event list). -/
theorem claim_C3_event_extraction (fmt : List Nat → String) (cur : Currency)
    (i : Nat) (pallet variant ehash : String)
    (metaF : List (String × String)) (aBytes bBytes : List Nat) :
    eventOps fmt cur i
        ⟨pallet, variant,
          .named [("from", .unnamed [.unnamed (aBytes.map .primU128)]),
                  ("amount", .primU128 100),
                  ("to", .unnamed [.unnamed (bBytes.map .primU128)])],
          metaF⟩ =
      .ok [⟨⟨(i : Int), none⟩, none, pallet ++ "." ++ variant, none,
            some ⟨fmt (aBytes.map (fun b => b % 256))⟩,
            some ⟨"-" ++ Nat.repr 100, cur⟩, some metaF⟩,
           ⟨⟨(i : Int), none⟩, none, pallet ++ "." ++ variant, none,
            some ⟨fmt (bBytes.map (fun b => b % 256))⟩,
            some ⟨Nat.repr 100, cur⟩, some metaF⟩] ∧
    pd_get_transaction fmt cur ehash
        [⟨pallet, variant,
          .named [("from", .unnamed [.unnamed (aBytes.map .primU128)]),
                  ("amount", .primU128 100),
                  ("to", .unnamed [.unnamed (bBytes.map .primU128)])],
          metaF⟩] =
      .ok ⟨⟨ehash⟩,
        [⟨⟨0, none⟩, none, pallet ++ "." ++ variant, none,
          some ⟨fmt (aBytes.map (fun b => b % 256))⟩,
          some ⟨"-" ++ Nat.repr 100, cur⟩, some metaF⟩,
         ⟨⟨0, none⟩, none, pallet ++ "." ++ variant, none,
          some ⟨fmt (bBytes.map (fun b => b % 256))⟩,
          some ⟨Nat.repr 100, cur⟩, some metaF⟩], false⟩ := by
  constructor
  · simp [eventOps, get_operation_data, get_operation_data.matchAmount,
      generate_address_bytes]
  · simp [pd_get_transaction, pdOpsLoop, eventOps, get_operation_data,
      get_operation_data.matchAmount, generate_address_bytes]


theorem uncleOps_all_present (cur : Currency) (rc : RewardConstants)
    (bn mr : Nat) :
    ∀ (k : Nat) (us : List (String × Nat)),
      (∀ u ∈ us, bn ≤ u.2 + rc.max_uncle_depth) →
      uncleOps cur rc bn mr k
          (us.map (fun p => ⟨some p.1, some p.2⟩)) =
        .ok ((List.enumFrom k us).map (fun ju =>
          ⟨⟨(ju.1 : Int), none⟩, none, UNCLE_REWARD_OP_TYPE,
           some SUCCESS_STATUS, some ⟨ju.2.1⟩,
           some ⟨Nat.repr ((ju.2.2 + rc.max_uncle_depth - bn) *
             (mr / rc.max_uncle_depth)), cur⟩, none⟩)) := by
  intro k us
  induction us generalizing k with
  | nil => intro _; rfl
  | cons u rest ih =>
      intro hall
      have h1 : ¬ u.2 + rc.max_uncle_depth < bn :=
        not_lt.mpr (hall u (List.mem_cons_self u rest))
      simp [uncleOps, h1,
        ih (k + 1) (fun v hv => hall v (List.mem_cons_of_mem u hv)),
        List.enumFrom_cons]

/-- C4: the base reward is chosen by ordered comparison against the
byzantium and constantinople thresholds (frontier by default); with at
least one uncle it becomes `r + (r / multiplier) * r`; the output is one
mining-reward operation for the block author at index 0 followed by one
uncle-reward operation per uncle at indices 1, 2, ... sized as
`(uncle_number + max_uncle_depth - block_number) * (reward / max_uncle_depth)`,
provided no uncle is deeper than `max_uncle_depth`; an uncle with
`uncle_number + max_uncle_depth < block_number` makes the `U64`
subtraction panic instead. -/
theorem claim_C4_block_rewards :
    (∀ (cc : ChainConfig) (rc : RewardConstants) (cur : Currency) (n : Nat)
      (bhash miner : String) (bfee : Option Nat)
      (us : List (String × Nat)),
      (∀ u ∈ us, n ≤ u.2 + rc.max_uncle_depth) →
    block_reward_transaction cc rc cur ⟨some miner, bfee, some bhash, some n⟩
        (us.map (fun p => ⟨some p.1, some p.2⟩)) =
      .ok ⟨⟨bhash⟩,
        (⟨⟨0, none⟩, none, MINING_REWARD_OP_TYPE, some SUCCESS_STATUS,
          some ⟨miner⟩,
          some ⟨Nat.repr (if us = [] then
              (if cc.constantinople_block ≤ n then rc.constantinople_reward
               else if cc.byzantium_block ≤ n then rc.byzantium_reward
               else rc.frontier_reward)
            else
              (if cc.constantinople_block ≤ n then rc.constantinople_reward
               else if cc.byzantium_block ≤ n then rc.byzantium_reward
               else rc.frontier_reward) +
              ((if cc.constantinople_block ≤ n then rc.constantinople_reward
                else if cc.byzantium_block ≤ n then rc.byzantium_reward
                else rc.frontier_reward) / rc.uncle_reward_multiplier) *
              (if cc.constantinople_block ≤ n then rc.constantinople_reward
               else if cc.byzantium_block ≤ n then rc.byzantium_reward
               else rc.frontier_reward)), cur⟩, none⟩ ::
         (List.enumFrom 1 us).map (fun ju =>
          ⟨⟨(ju.1 : Int), none⟩, none, UNCLE_REWARD_OP_TYPE,
           some SUCCESS_STATUS, some ⟨ju.2.1⟩,
           some ⟨Nat.repr ((ju.2.2 + rc.max_uncle_depth - n) *
             ((if us = [] then
                (if cc.constantinople_block ≤ n then rc.constantinople_reward
                 else if cc.byzantium_block ≤ n then rc.byzantium_reward
                 else rc.frontier_reward)
              else
                (if cc.constantinople_block ≤ n then rc.constantinople_reward
                 else if cc.byzantium_block ≤ n then rc.byzantium_reward
                 else rc.frontier_reward) +
                ((if cc.constantinople_block ≤ n then rc.constantinople_reward
                  else if cc.byzantium_block ≤ n then rc.byzantium_reward
                  else rc.frontier_reward) / rc.uncle_reward_multiplier) *
                (if cc.constantinople_block ≤ n then rc.constantinople_reward
                 else if cc.byzantium_block ≤ n then rc.byzantium_reward
                 else rc.frontier_reward)) / rc.max_uncle_depth)), cur⟩,
           none⟩)),
        false⟩) ∧
    (∀ (cc : ChainConfig) (rc : RewardConstants) (cur : Currency) (n : Nat)
      (bhash miner a : String) (bfee : Option Nat) (unum : Nat)
      (rest : List EthUncle),
      unum + rc.max_uncle_depth < n →
      block_reward_transaction cc rc cur
          ⟨some miner, bfee, some bhash, some n⟩
          (⟨some a, some unum⟩ :: rest) =
        .panic "attempt to subtract with overflow") := by
  constructor
  · intro cc rc cur n bhash miner bfee us hdepth
    have hu : ∀ (mr k : Nat),
        uncleOps cur rc n mr k
            (us.map (fun p => ⟨some p.1, some p.2⟩)) =
          .ok ((List.enumFrom k us).map (fun ju =>
            ⟨⟨(ju.1 : Int), none⟩, none, UNCLE_REWARD_OP_TYPE,
             some SUCCESS_STATUS, some ⟨ju.2.1⟩,
             some ⟨Nat.repr ((ju.2.2 + rc.max_uncle_depth - n) *
               (mr / rc.max_uncle_depth)), cur⟩, none⟩)) :=
      fun mr k => uncleOps_all_present cur rc n mr k us hdepth
    by_cases hcons : cc.constantinople_block ≤ n <;>
      by_cases hbyz : cc.byzantium_block ≤ n <;>
      by_cases hus : us = [] <;>
      simp [block_reward_transaction, uncleOps, hu, hcons, hbyz, hus]
  · intro cc rc cur n bhash miner a bfee unum rest hlt
    simp [block_reward_transaction, uncleOps, hlt]

/-- C4 witness: a concrete constantinople-era block with one
shallow-enough uncle (reward 1400, uncle reward 525), and a concrete
too-deep uncle that panics. -/
theorem claim_C4_block_rewards_witness :
    block_reward_transaction ⟨5, 10⟩ ⟨500, 300, 200, 8, 32⟩ ⟨"ETH", 18⟩
        ⟨some "M", none, some "h", some 12⟩ [⟨some "U", some 7⟩] =
      .ok ⟨⟨"h"⟩,
        [⟨⟨0, none⟩, none, MINING_REWARD_OP_TYPE, some SUCCESS_STATUS,
          some ⟨"M"⟩, some ⟨Nat.repr 1400, ⟨"ETH", 18⟩⟩, none⟩,
         ⟨⟨1, none⟩, none, UNCLE_REWARD_OP_TYPE, some SUCCESS_STATUS,
          some ⟨"U"⟩, some ⟨Nat.repr 525, ⟨"ETH", 18⟩⟩, none⟩], false⟩ ∧
    block_reward_transaction ⟨5, 10⟩ ⟨500, 300, 200, 8, 32⟩ ⟨"ETH", 18⟩
        ⟨some "M", none, some "h", some 100⟩ [⟨some "U", some 1⟩] =
      .panic "attempt to subtract with overflow" := by
  constructor
  · have h := claim_C4_block_rewards.1 ⟨5, 10⟩ ⟨500, 300, 200, 8, 32⟩
      ⟨"ETH", 18⟩ 12 "h" "M" none [("U", 7)] (by decide)
    simpa using h
  · exact claim_C4_block_rewards.2 ⟨5, 10⟩ ⟨500, 300, 200, 8, 32⟩
      ⟨"ETH", 18⟩ 100 "h" "M" "U" none 1 [] (by decide)


/-- C5: a zero-value call-kind flattened entry emits no operation at all
(`entryOps` is empty for it) and consumes no operation index: the fold over
the entry list with the entry removed produces the identical state, so the
surrounding entries keep exactly the same indices.  The third conjunct ties
the fold to `get_trace_operations`. -/
theorem claim_C5_zero_value_call (cur : Currency) (op_len : Int)
    (l1 l2 : List FlattenTrace) (zc : FlattenTrace)
    (h1 : zc.value = 0) (h2 : zc.trace_type = CALL_OP_TYPE) :
    (∀ L : Nat, entryOps cur op_len L zc = []) ∧
    traceOpsFold cur op_len (l1 ++ zc :: l2) =
      traceOpsFold cur op_len (l1 ++ l2) ∧
    (∀ t : Trace,
      get_trace_operations t op_len cur =
        (traceOpsFold cur op_len (flattenBFS [t])).operations) := by
  refine ⟨fun L => entryOps_zero_call cur op_len L zc h1 h2, ?_,
    fun t => rfl⟩
  unfold traceOpsFold
  rw [List.foldl_append, List.foldl_append, List.foldl_cons,
    traceOpsFold_eq_opsAccum, processTrace_empty_map,
    entryOps_zero_call cur op_len _ zc h1 h2]
  simp

/-- C5 witness: a concrete zero-value call entry between two ordinary
entries. -/
theorem claim_C5_zero_value_call_witness :
    entryOps ⟨"ETH", 18⟩ 0 0 ⟨"a", "b", 0, "CALL", false, ""⟩ = [] ∧
    traceOpsFold ⟨"ETH", 18⟩ 0
        [⟨"x", "y", 7, "CALL", false, ""⟩,
         ⟨"a", "b", 0, "CALL", false, ""⟩] =
      traceOpsFold ⟨"ETH", 18⟩ 0 [⟨"x", "y", 7, "CALL", false, ""⟩] := by
  have h := claim_C5_zero_value_call ⟨"ETH", 18⟩ 0
    [⟨"x", "y", 7, "CALL", false, ""⟩] []
    ⟨"a", "b", 0, "CALL", false, ""⟩ rfl rfl
  exact ⟨h.1 0, by simpa using h.2.1⟩


/-- C6 counterexample: for a concrete reverted call entry with error
message "boom", the emitted operations have status failure but their
metadata is `none` — the claim that metadata carries the entry error
message is false (the source builds a local error map and never attaches
it). -/
theorem claim_C6_metadata_counterexample :
    ∃ op ∈ get_trace_operations (.mk "a" "b" 5 "CALL" true "boom" []) 0
        ⟨"ETH", 18⟩,
      op.status = some FAILURE_STATUS ∧
        op.metadata ≠ some [("error", "boom")] := by
  have hflat : flattenBFS [(.mk "a" "b" 5 "CALL" true "boom" [] : Trace)] =
      [⟨"a", "b", 5, "CALL", true, "boom"⟩] := by
    rw [flattenBFS]
    simp [flattenBFS, FlattenTrace.ofTrace, Trace.calls, Trace.from_addr,
      Trace.to_addr, Trace.value, Trace.trace_type, Trace.revert,
      Trace.error_message]
  have hops : get_trace_operations (.mk "a" "b" 5 "CALL" true "boom" []) 0
      ⟨"ETH", 18⟩ =
      (traceOpsFold ⟨"ETH", 18⟩ 0 [⟨"a", "b", 5, "CALL", true, "boom"⟩]).operations := by
    rw [get_trace_operations, hflat]
  rw [hops]
  refine ⟨⟨⟨0, none⟩, none, "CALL", some FAILURE_STATUS, some ⟨"a"⟩,
    some ⟨"-" ++ Nat.repr 5, ⟨"ETH", 18⟩⟩, none⟩, ?_, rfl, by simp⟩
  decide

/-- C6 amended: for every flattened entry processed from the (always
empty) destroyed-accounts state, every emitted operation has status
success unless the entry is reverted, in which case failure; the
operations carry `metadata = none` — the entry error message is never
attached. -/
theorem claim_C6_status_metadata (cur : Currency) (op_len : Int)
    (ops : List Operation) (tr : FlattenTrace) :
    (processTrace cur op_len ⟨ops, []⟩ tr).operations =
      ops ++ entryOps cur op_len ops.length tr ∧
    ∀ op ∈ entryOps cur op_len ops.length tr,
      op.status = some (if tr.revert then FAILURE_STATUS else SUCCESS_STATUS) ∧
        op.metadata = none := by
  refine ⟨by rw [processTrace_empty_map], ?_⟩
  intro op hop
  have h := entryOps_status_metadata_type cur op_len ops.length tr op hop
  exact ⟨h.1, h.2.1⟩

/-- C6 witness: the amended statement at a concrete reverted entry. -/
theorem claim_C6_status_metadata_witness :
    (processTrace ⟨"ETH", 18⟩ 0 ⟨[], []⟩
        ⟨"a", "b", 5, "CALL", true, "boom"⟩).operations =
      [] ++ entryOps ⟨"ETH", 18⟩ 0 0 ⟨"a", "b", 5, "CALL", true, "boom"⟩ ∧
    (⟨⟨0, none⟩, none, "CALL", some FAILURE_STATUS, some ⟨"a"⟩,
        some ⟨"-" ++ Nat.repr 5, ⟨"ETH", 18⟩⟩, none⟩ : Operation).status =
      some (if (⟨"a", "b", 5, "CALL", true, "boom"⟩ : FlattenTrace).revert
        then FAILURE_STATUS else SUCCESS_STATUS) ∧
    (⟨⟨0, none⟩, none, "CALL", some FAILURE_STATUS, some ⟨"a"⟩,
        some ⟨"-" ++ Nat.repr 5, ⟨"ETH", 18⟩⟩, none⟩ : Operation).metadata =
      none :=
  ⟨(claim_C6_status_metadata ⟨"ETH", 18⟩ 0 []
      ⟨"a", "b", 5, "CALL", true, "boom"⟩).1,
   ((claim_C6_status_metadata ⟨"ETH", 18⟩ 0 []
      ⟨"a", "b", 5, "CALL", true, "boom"⟩).2 _ (by decide)).1,
   ((claim_C6_status_metadata ⟨"ETH", 18⟩ 0 []
      ⟨"a", "b", 5, "CALL", true, "boom"⟩).2 _ (by decide)).2⟩


/-- C7 counterexample: a block with no author makes
`block_reward_transaction` panic (`block.author.unwrap()`), not return a
typed error — so the claim that a missing block author is always surfaced
as a typed error (never a panic) is false at this input. -/
theorem claim_C7_typed_errors_counterexample :
    block_reward_transaction ⟨5, 10⟩ ⟨500, 300, 200, 8, 32⟩ ⟨"ETH", 18⟩
        ⟨none, none, some "h", some 3⟩ [] =
      .panic "called Option unwrap on a None value" ∧
    ∀ m, block_reward_transaction ⟨5, 10⟩ ⟨500, 300, 200, 8, 32⟩ ⟨"ETH", 18⟩
        ⟨none, none, some "h", some 3⟩ [] ≠ .err m := by
  refine ⟨rfl, ?_⟩
  intro m
  simp [block_reward_transaction]

/-- C7 amended: every listed missing chain-data field aborts the unit of
work with a typed error and no partial result — missing author, base fee,
transaction type, gas price and gas used in the fee builder (and hence in
the ethereum transaction conversion), missing block number, block hash and
uncle author in the block-reward builder, and unsupported event shapes in
the event extractor — with the single exception that a missing block
author makes the block-reward builder panic via `unwrap` instead of
returning a typed error. -/
theorem claim_C7_typed_errors :
    (∀ (bf : Option Nat) (bh : Option String) (bn : Option Nat)
        (tx : EthTx) (rcpt : EthReceipt) (cur : Currency),
      get_fee_operations ⟨none, bf, bh, bn⟩ tx rcpt cur =
        .err "block has no author") ∧
    (∀ (a : String) (bh : Option String) (bn : Option Nat) (tx : EthTx)
        (rcpt : EthReceipt) (cur : Currency),
      get_fee_operations ⟨some a, none, bh, bn⟩ tx rcpt cur =
        .err "block has no base fee") ∧
    (∀ (a th s : String) (bf : Nat) (bh : Option String) (bn gp pf : Option Nat)
        (rcpt : EthReceipt) (cur : Currency),
      get_fee_operations ⟨some a, some bf, bh, bn⟩ ⟨th, s, none, gp, pf⟩
        rcpt cur = .err "transaction type unavailable") ∧
    (∀ (a th s : String) (bf ty : Nat) (bh : Option String)
        (bn pf : Option Nat) (rcpt : EthReceipt) (cur : Currency),
      get_fee_operations ⟨some a, some bf, bh, bn⟩ ⟨th, s, some ty, none, pf⟩
        rcpt cur = .err "gas price is not available") ∧
    (∀ (a th s : String) (bf ty gp : Nat) (bh rbh : Option String)
        (bn pf : Option Nat) (cur : Currency),
      get_fee_operations ⟨some a, some bf, bh, bn⟩
        ⟨th, s, some ty, some gp, pf⟩ ⟨rbh, none⟩ cur =
        .err "gas used is not available") ∧
    (∀ (cc : ChainConfig) (rc : RewardConstants) (cur : Currency)
        (auth : Option String) (bf : Option Nat) (bh : Option String)
        (us : List EthUncle),
      block_reward_transaction cc rc cur ⟨auth, bf, bh, none⟩ us =
        .err "missing block number") ∧
    (∀ (cc : ChainConfig) (rc : RewardConstants) (cur : Currency)
        (auth : Option String) (bf : Option Nat) (n : Nat)
        (us : List EthUncle),
      block_reward_transaction cc rc cur ⟨auth, bf, none, some n⟩ us =
        .err "missing block hash") ∧
    (∀ (cc : ChainConfig) (rc : RewardConstants) (cur : Currency)
        (bf : Option Nat) (h : String) (n : Nat) (us : List EthUncle),
      block_reward_transaction cc rc cur ⟨none, bf, some h, some n⟩ us =
        .panic "called Option unwrap on a None value") ∧
    (∀ (cc : ChainConfig) (rc : RewardConstants) (cur : Currency)
        (a h : String) (bf num : Option Nat) (n : Nat)
        (rest : List EthUncle),
      block_reward_transaction cc rc cur ⟨some a, bf, some h, some n⟩
        (⟨none, num⟩ :: rest) = .err "Uncle block has no author") ∧
    (∀ (fmt : List Nat → String) (cur : Currency) (i : Nat)
        (p v eh : String) (mf : List (String × String))
        (rest : List EventRecord),
      eventOps fmt cur i ⟨p, v, .other, mf⟩ = .err "invalid operation" ∧
      pd_get_transaction fmt cur eh (⟨p, v, .other, mf⟩ :: rest) =
        .err "invalid operation") ∧
    (∀ (fmt : List Nat → String) (cur : Currency) (i : Nat)
        (p v : String) (mf : List (String × String)),
      eventOps fmt cur i ⟨p, v, .named [("amount", .other)], mf⟩ =
        .err "invalid operation") ∧
    (∀ (cur : Currency) (bf : Option Nat) (h : String) (bn gu : Option Nat)
        (tx : EthTx) (trace : Trace),
      eth_get_transaction cur ⟨none, bf, some h, bn⟩ tx ⟨some h, gu⟩ trace =
        .err "block has no author") := by
  refine ⟨fun bf bh bn tx rcpt cur => rfl,
    fun a bh bn tx rcpt cur => rfl,
    fun a th s bf bh bn gp pf rcpt cur => rfl,
    fun a th s bf ty bh bn pf rcpt cur => rfl,
    fun a th s bf ty gp bh rbh bn pf cur => rfl,
    fun cc rc cur auth bf bh us => rfl,
    fun cc rc cur auth bf n us => rfl,
    fun cc rc cur bf h n us => rfl,
    ?_, ?_, ?_, ?_⟩
  · intro cc rc cur a h bf num n rest
    simp [block_reward_transaction, uncleOps]
  · intro fmt cur i p v eh mf rest
    exact ⟨rfl, by simp [pd_get_transaction, pdOpsLoop, eventOps,
      get_operation_data]⟩
  · intro fmt cur i p v mf
    simp [eventOps, get_operation_data, get_operation_data.matchAmount]
  · intro cur bf h bn gu tx trace
    simp [eth_get_transaction, get_fee_operations]


theorem eventOps_indices (fmt : List Nat → String) (cur : Currency)
    (i : Nat) (e : EventRecord) (l : List Operation)
    (h : eventOps fmt cur i e = .ok l) :
    ∀ op ∈ l, op.operation_identifier.index = (i : Int) := by
  unfold eventOps at h
  cases hgd : get_operation_data fmt e with
  | err m => rw [hgd] at h; simp at h
  | panic m => rw [hgd] at h; simp at h
  | ok parsed =>
      rw [hgd] at h
      rcases hto : parsed.to_addr with _ | t <;>
        rcases ham : parsed.amount with _ | am <;>
        simp [hto, ham] at h <;> intro op hop <;> rw [← h] at hop <;>
        simp at hop
      · rw [hop]
      · rw [hop]
      · rw [hop]
      · rcases hop with hop | hop <;> rw [hop]

theorem pairwise_const_index (c : Int) :
    ∀ (l : List Operation), (∀ op ∈ l, op.operation_identifier.index = c) →
      List.Pairwise (fun a b : Operation =>
        a.operation_identifier.index ≤ b.operation_identifier.index) l := by
  intro l
  induction l with
  | nil => intro _; exact List.Pairwise.nil
  | cons a rest ih =>
      intro hall
      refine List.Pairwise.cons ?_ (ih ?_)
      · intro b hb
        rw [hall a (List.mem_cons_self a rest), hall b (List.mem_cons_of_mem a hb)]
      · intro op hop
        exact hall op (List.mem_cons_of_mem a hop)

theorem pdOpsLoop_indices (fmt : List Nat → String) (cur : Currency) :
    ∀ (evs : List EventRecord) (k : Nat) (l : List Operation),
      pdOpsLoop fmt cur k evs = .ok l →
      (∀ op ∈ l, (k : Int) ≤ op.operation_identifier.index) ∧
      List.Pairwise (fun a b : Operation =>
        a.operation_identifier.index ≤ b.operation_identifier.index) l := by
  intro evs
  induction evs with
  | nil =>
      intro k l h
      simp [pdOpsLoop] at h
      subst h
      exact ⟨by intro op hop; simp at hop, List.Pairwise.nil⟩
  | cons e rest ih =>
      intro k l h
      unfold pdOpsLoop at h
      cases he : eventOps fmt cur k e with
      | err m => rw [he] at h; simp at h
      | panic m => rw [he] at h; simp at h
      | ok ops =>
          rw [he] at h
          cases hr : pdOpsLoop fmt cur (k + 1) rest with
          | err m => rw [hr] at h; simp at h
          | panic m => rw [hr] at h; simp at h
          | ok rest_ops =>
              rw [hr] at h
              simp at h
              rw [← h]
              have hev := eventOps_indices fmt cur k e ops he
              have hih := ih (k + 1) rest_ops hr
              constructor
              · intro op hop
                rcases List.mem_append.mp hop with h2 | h2
                · rw [hev op h2]
                · have h3 := hih.1 op h2
                  push_cast at h3 ⊢
                  omega
              · rw [List.pairwise_append]
                refine ⟨pairwise_const_index (k : Int) ops hev, hih.2, ?_⟩
                intro a ha b hb
                have h2 := hih.1 b hb
                rw [hev a ha]
                push_cast at h2 ⊢
                omega

theorem fee_ops_indices (b : EthBlock) (tx : EthTx) (r : EthReceipt)
    (cur : Currency) (l : List Operation)
    (h : get_fee_operations b tx r cur = .ok l) :
    ∀ (j : Nat) (hj : j < l.length),
      (l.get ⟨j, hj⟩).operation_identifier.index = (j : Int) := by
  obtain ⟨auth, bfee, bh, bn⟩ := b
  obtain ⟨th, fr, ty, gp, pf⟩ := tx
  obtain ⟨rbh, gu⟩ := r
  rcases auth with _ | a <;> rcases bfee with _ | bf <;>
    rcases ty with _ | ty <;> rcases gp with _ | gp <;>
    rcases gu with _ | gu <;> simp [get_fee_operations] at h
  split_ifs at h <;> simp at h <;> rw [← h] <;>
    intro j hj <;> rcases j with _ | _ | _ | j <;>
    first
      | (simp
         done)
      | (exfalso
         simp only [List.length_cons, List.length_nil] at hj
         omega)

theorem trace_ops_index (t : Trace) (op_len : Int) (cur : Currency) :
    ∀ (j : Nat) (hj : j < (get_trace_operations t op_len cur).length),
      ((get_trace_operations t op_len cur).get
          ⟨j, hj⟩).operation_identifier.index = op_len + (j : Int) := by
  intro j hj
  have h1 : get_trace_operations t op_len cur =
      opsAccum cur op_len [] (flattenBFS [t]) := by
    rw [get_trace_operations, traceOpsFold_spec]
  revert hj
  rw [h1]
  intro hj
  exact opsAccum_index cur op_len (flattenBFS [t]) []
    (by intro j2 hj2; simp at hj2) j hj


/-- C8 counterexample: in the event pipeline, one event with sender,
amount and receiver produces two operations sharing the event index, so
operation indices within the produced transaction are neither unique nor
strictly increasing. -/
theorem claim_C8_indices_counterexample :
    pd_get_transaction (fun _ => "A") ⟨"DOT", 10⟩ "h"
        [⟨"Balances", "Transfer",
          .named [("from", .unnamed [.unnamed [.primU128 1]]),
                  ("amount", .primU128 100),
                  ("to", .unnamed [.unnamed [.primU128 2]])], []⟩] =
      .ok ⟨⟨"h"⟩,
        [⟨⟨0, none⟩, none, "Balances.Transfer", none, some ⟨"A"⟩,
          some ⟨"-" ++ Nat.repr 100, ⟨"DOT", 10⟩⟩, some []⟩,
         ⟨⟨0, none⟩, none, "Balances.Transfer", none, some ⟨"A"⟩,
          some ⟨Nat.repr 100, ⟨"DOT", 10⟩⟩, some []⟩], false⟩ ∧
    ¬ List.Pairwise (fun a b : Operation =>
        a.operation_identifier.index < b.operation_identifier.index)
      [(⟨⟨0, none⟩, none, "Balances.Transfer", none, some ⟨"A"⟩,
          some ⟨"-" ++ Nat.repr 100, ⟨"DOT", 10⟩⟩, some []⟩ : Operation),
       ⟨⟨0, none⟩, none, "Balances.Transfer", none, some ⟨"A"⟩,
          some ⟨Nat.repr 100, ⟨"DOT", 10⟩⟩, some []⟩] := by
  refine ⟨rfl, ?_⟩
  intro h
  have h2 := List.rel_of_pairwise_cons h (List.mem_cons_self _ _)
  simp at h2

/-- C8 amended: in the execution-trace pipeline indices are unique and
strictly increasing, consecutive from the caller-supplied offset (trace
operations) resp. from 0 (the whole ethereum transaction); in the event
pipeline indices are nondecreasing in emission order, and all operations
of one event share that event's index. -/
theorem claim_C8_operation_indices :
    (∀ (t : Trace) (op_len : Int) (cur : Currency) (j : Nat)
        (hj : j < (get_trace_operations t op_len cur).length),
      ((get_trace_operations t op_len cur).get
          ⟨j, hj⟩).operation_identifier.index = op_len + (j : Int)) ∧
    (∀ (cur : Currency) (b : EthBlock) (tx : EthTx) (r : EthReceipt)
        (trace : Trace) (rtx : RosettaTransaction),
      eth_get_transaction cur b tx r trace = .ok rtx →
      ∀ (j : Nat) (hj : j < rtx.operations.length),
        (rtx.operations.get ⟨j, hj⟩).operation_identifier.index = (j : Int)) ∧
    (∀ (fmt : List Nat → String) (cur : Currency) (eh : String)
        (evs : List EventRecord) (rtx : RosettaTransaction),
      pd_get_transaction fmt cur eh evs = .ok rtx →
      List.Pairwise (fun a b : Operation =>
        a.operation_identifier.index ≤ b.operation_identifier.index)
        rtx.operations) ∧
    (∀ (fmt : List Nat → String) (cur : Currency) (i : Nat)
        (e : EventRecord) (l : List Operation),
      eventOps fmt cur i e = .ok l →
      ∀ op ∈ l, op.operation_identifier.index = (i : Int)) := by
  refine ⟨trace_ops_index, ?_, ?_, eventOps_indices⟩
  · intro cur b tx r trace rtx h j hj
    unfold eth_get_transaction at h
    cases hrb : r.block_hash with
    | none => simp only [hrb] at h; simp at h
    | some rbh =>
      simp only [hrb] at h
      cases hbh : b.hash with
      | none => simp only [hbh] at h; simp at h
      | some bh =>
        simp only [hbh] at h
        by_cases hne : rbh ≠ bh
        · rw [if_pos hne] at h
          simp at h
        · rw [if_neg hne] at h
          cases hfee : get_fee_operations b tx r cur with
          | err m => simp only [hfee] at h; simp at h
          | panic m => simp only [hfee] at h; simp at h
          | ok fee_ops =>
            simp only [hfee] at h
            cases hbn : b.number with
            | none => simp only [hbn] at h; simp at h
            | some n =>
              simp only [hbn, RustResult.ok.injEq] at h
              subst h
              revert hj
              by_cases hn : n = 0 <;> simp [hn] <;> intro hj
              · exact fee_ops_indices b tx r cur fee_ops hfee j hj
              · rcases Nat.lt_or_ge j fee_ops.length with hlt | hge
                · have h2 := fee_ops_indices b tx r cur fee_ops hfee j hlt
                  simp only [List.get_eq_getElem] at h2 ⊢
                  rw [List.getElem_append_left hlt]
                  exact h2
                · have hj2 : j - fee_ops.length <
                      (get_trace_operations trace (fee_ops.length) cur).length := by
                    omega
                  have h4 := trace_ops_index trace (fee_ops.length) cur
                    (j - fee_ops.length) hj2
                  simp only [List.get_eq_getElem] at h4 ⊢
                  rw [List.getElem_append_right hge]
                  rw [h4]
                  omega
  · intro fmt cur eh evs rtx h
    unfold pd_get_transaction at h
    cases hl : pdOpsLoop fmt cur 0 evs with
    | err m => simp only [hl] at h; simp at h
    | panic m => simp only [hl] at h; simp at h
    | ok ops =>
        simp only [hl, RustResult.ok.injEq] at h
        subst h
        exact (pdOpsLoop_indices fmt cur evs 0 ops hl).2


/-- Single-node trace used by the C8 witness. -/
def demoTraceC8 : Trace := .mk "x" "y" 7 "CALL" false "" []

/-- C8 witness: the four conjuncts of the amended index theorem applied at
concrete inputs. -/
theorem claim_C8_operation_indices_witness :
    ((get_trace_operations demoTraceC8 4 ⟨"ETH", 18⟩).get? 1).map
        (fun op => op.operation_identifier.index) = some 5 ∧
    (([⟨⟨0, none⟩, none, FEE_OP_TYPE, some SUCCESS_STATUS, some ⟨"S"⟩,
        some ⟨"-" ++ Nat.repr 210000, ⟨"ETH", 18⟩⟩, none⟩,
       ⟨⟨1, none⟩, some [⟨0, none⟩], FEE_OP_TYPE, some SUCCESS_STATUS,
        some ⟨"M"⟩, some ⟨Nat.repr 210000, ⟨"ETH", 18⟩⟩, none⟩,
       ⟨⟨2, none⟩, none, FEE_OP_TYPE, some SUCCESS_STATUS, some ⟨"S"⟩,
        some ⟨"-" ++ Nat.repr 210000, ⟨"ETH", 18⟩⟩, none⟩] :
        List Operation).get? 2).map
        (fun op => op.operation_identifier.index) = some 2 ∧
    List.Pairwise (fun a b : Operation =>
        a.operation_identifier.index ≤ b.operation_identifier.index)
      [(⟨⟨0, none⟩, none, "Balances.Transfer", none, some ⟨"A"⟩,
          some ⟨"-" ++ Nat.repr 100, ⟨"DOT", 10⟩⟩, some []⟩ : Operation),
       ⟨⟨0, none⟩, none, "Balances.Transfer", none, some ⟨"A"⟩,
          some ⟨Nat.repr 100, ⟨"DOT", 10⟩⟩, some []⟩] ∧
    (⟨⟨3, none⟩, none, "Balances.Transfer", none, some ⟨"A"⟩,
        some ⟨"-" ++ Nat.repr 100, ⟨"DOT", 10⟩⟩, some []⟩ :
        Operation).operation_identifier.index = ((3 : Nat) : Int) := by
  have hflat : flattenBFS [demoTraceC8] = [⟨"x", "y", 7, "CALL", false, ""⟩] := by
    rw [flattenBFS]
    simp [flattenBFS, FlattenTrace.ofTrace, demoTraceC8, Trace.calls,
      Trace.from_addr, Trace.to_addr, Trace.value, Trace.trace_type,
      Trace.revert, Trace.error_message]
  have hops : get_trace_operations demoTraceC8 4 ⟨"ETH", 18⟩ =
      (traceOpsFold ⟨"ETH", 18⟩ 4 [⟨"x", "y", 7, "CALL", false, ""⟩]).operations := by
    rw [get_trace_operations, hflat]
  have hlen : 1 < (get_trace_operations demoTraceC8 4 ⟨"ETH", 18⟩).length := by
    rw [hops]
    decide
  refine ⟨?_, ?_, ?_, ?_⟩
  · rw [List.get?_eq_get hlen]
    show some (((get_trace_operations demoTraceC8 4
        ⟨"ETH", 18⟩).get ⟨1, hlen⟩).operation_identifier.index) = some 5
    rw [claim_C8_operation_indices.1 demoTraceC8 4 ⟨"ETH", 18⟩ 1 hlen]
    rfl
  · have hb := claim_C8_operation_indices.2.1 ⟨"ETH", 18⟩
      ⟨some "M", some 10, some "h", some 0⟩ ⟨"th", "S", some 0, some 20, none⟩
      ⟨some "h", some 21000⟩ demoTraceC8
      ⟨⟨"th"⟩,
       [⟨⟨0, none⟩, none, FEE_OP_TYPE, some SUCCESS_STATUS, some ⟨"S"⟩,
         some ⟨"-" ++ Nat.repr 210000, ⟨"ETH", 18⟩⟩, none⟩,
        ⟨⟨1, none⟩, some [⟨0, none⟩], FEE_OP_TYPE, some SUCCESS_STATUS,
         some ⟨"M"⟩, some ⟨Nat.repr 210000, ⟨"ETH", 18⟩⟩, none⟩,
        ⟨⟨2, none⟩, none, FEE_OP_TYPE, some SUCCESS_STATUS, some ⟨"S"⟩,
         some ⟨"-" ++ Nat.repr 210000, ⟨"ETH", 18⟩⟩, none⟩], true⟩ rfl
    rw [List.get?_eq_get (by decide)]
    exact congrArg some (hb 2 (by decide))
  · exact claim_C8_operation_indices.2.2.1 (fun _ => "A") ⟨"DOT", 10⟩ "h"
      [⟨"Balances", "Transfer",
        .named [("from", .unnamed [.unnamed [.primU128 1]]),
                ("amount", .primU128 100),
                ("to", .unnamed [.unnamed [.primU128 2]])], []⟩]
      ⟨⟨"h"⟩,
       [⟨⟨0, none⟩, none, "Balances.Transfer", none, some ⟨"A"⟩,
         some ⟨"-" ++ Nat.repr 100, ⟨"DOT", 10⟩⟩, some []⟩,
        ⟨⟨0, none⟩, none, "Balances.Transfer", none, some ⟨"A"⟩,
         some ⟨Nat.repr 100, ⟨"DOT", 10⟩⟩, some []⟩], false⟩ rfl
  · exact claim_C8_operation_indices.2.2.2 (fun _ => "A") ⟨"DOT", 10⟩ 3
      ⟨"Balances", "Transfer",
        .named [("from", .unnamed [.unnamed [.primU128 1]]),
                ("amount", .primU128 100),
                ("to", .unnamed [.unnamed [.primU128 2]])], []⟩
      [⟨⟨3, none⟩, none, "Balances.Transfer", none, some ⟨"A"⟩,
        some ⟨"-" ++ Nat.repr 100, ⟨"DOT", 10⟩⟩, some []⟩,
       ⟨⟨3, none⟩, none, "Balances.Transfer", none, some ⟨"A"⟩,
        some ⟨Nat.repr 100, ⟨"DOT", 10⟩⟩, some []⟩] rfl
      _ (List.mem_cons_self _ _)


/-- Single-node trace used by the C9 witness. -/
def demoTraceC9 : Trace := .mk "x" "y" 7 "CALL" false "" []

/-- C9: the destroyed-accounts map stays empty on every input (the fold
state invariant), each per-entry step on the empty map factors through the
map-free `entryOps` (so the map updates and the create/create2 erase have
no observable effect), every output operation takes its kind from some
flattened input entry, and hence — when no input entry has the destruct
kind — no output operation has kind destruct. -/
theorem claim_C9_destroyed_accounts_empty :
    (∀ (cur : Currency) (op_len : Int) (entries : List FlattenTrace),
      (traceOpsFold cur op_len entries).destroyed_accs = []) ∧
    (∀ (cur : Currency) (op_len : Int) (ops : List Operation)
        (tr : FlattenTrace),
      processTrace cur op_len ⟨ops, []⟩ tr =
        ⟨ops ++ entryOps cur op_len ops.length tr, []⟩) ∧
    (∀ (t : Trace) (op_len : Int) (cur : Currency) (op : Operation),
      op ∈ get_trace_operations t op_len cur →
      ∃ e ∈ flattenBFS [t], op.type = e.trace_type) ∧
    (∀ (t : Trace) (op_len : Int) (cur : Currency),
      (∀ e ∈ flattenBFS [t], e.trace_type ≠ DESTRUCT_OP_TYPE) →
      ∀ op ∈ get_trace_operations t op_len cur,
        op.type ≠ DESTRUCT_OP_TYPE) := by
  have hmem : ∀ (t : Trace) (op_len : Int) (cur : Currency) (op : Operation),
      op ∈ get_trace_operations t op_len cur →
      ∃ e ∈ flattenBFS [t], op.type = e.trace_type := by
    intro t op_len cur op hop
    rw [get_trace_operations, traceOpsFold_spec] at hop
    rcases opsAccum_mem_type cur op_len (flattenBFS [t]) [] op hop with h | h
    · simp at h
    · exact h
  refine ⟨?_, processTrace_empty_map, hmem, ?_⟩
  · intro cur op_len entries
    rw [traceOpsFold_spec]
  · intro t op_len cur hall op hop
    rcases hmem t op_len cur op hop with ⟨e, he, hty⟩
    rw [hty]
    exact hall e he

/-- C9 witness: the invariants at a concrete one-node call trace. -/
theorem claim_C9_destroyed_accounts_empty_witness :
    (traceOpsFold ⟨"ETH", 18⟩ 0
      [⟨"x", "y", 7, "CALL", false, ""⟩]).destroyed_accs = [] ∧
    processTrace ⟨"ETH", 18⟩ 0 ⟨[], []⟩ ⟨"x", "y", 7, "CALL", false, ""⟩ =
      ⟨[] ++ entryOps ⟨"ETH", 18⟩ 0 0 ⟨"x", "y", 7, "CALL", false, ""⟩, []⟩ ∧
    (∃ e ∈ flattenBFS [demoTraceC9],
      (⟨⟨0, none⟩, none, "CALL", some SUCCESS_STATUS, some ⟨"x"⟩,
        some ⟨"-" ++ Nat.repr 7, ⟨"ETH", 18⟩⟩, none⟩ : Operation).type =
        e.trace_type) ∧
    (⟨⟨0, none⟩, none, "CALL", some SUCCESS_STATUS, some ⟨"x"⟩,
      some ⟨"-" ++ Nat.repr 7, ⟨"ETH", 18⟩⟩, none⟩ : Operation).type ≠
      DESTRUCT_OP_TYPE := by
  have hflat : flattenBFS [demoTraceC9] =
      [⟨"x", "y", 7, "CALL", false, ""⟩] := by
    rw [flattenBFS]
    simp [flattenBFS, FlattenTrace.ofTrace, demoTraceC9, Trace.calls,
      Trace.from_addr, Trace.to_addr, Trace.value, Trace.trace_type,
      Trace.revert, Trace.error_message]
  have hops : get_trace_operations demoTraceC9 0 ⟨"ETH", 18⟩ =
      (traceOpsFold ⟨"ETH", 18⟩ 0
        [⟨"x", "y", 7, "CALL", false, ""⟩]).operations := by
    rw [get_trace_operations, hflat]
  have hin : (⟨⟨0, none⟩, none, "CALL", some SUCCESS_STATUS, some ⟨"x"⟩,
      some ⟨"-" ++ Nat.repr 7, ⟨"ETH", 18⟩⟩, none⟩ : Operation) ∈
      get_trace_operations demoTraceC9 0 ⟨"ETH", 18⟩ := by
    rw [hops]
    decide
  refine ⟨claim_C9_destroyed_accounts_empty.1 ⟨"ETH", 18⟩ 0
      [⟨"x", "y", 7, "CALL", false, ""⟩],
    claim_C9_destroyed_accounts_empty.2.1 ⟨"ETH", 18⟩ 0 []
      ⟨"x", "y", 7, "CALL", false, ""⟩,
    claim_C9_destroyed_accounts_empty.2.2.1 demoTraceC9 0 ⟨"ETH", 18⟩ _ hin,
    claim_C9_destroyed_accounts_empty.2.2.2 demoTraceC9 0 ⟨"ETH", 18⟩
      ?_ _ hin⟩
  rw [hflat]
  decide

/-- C10: `miner_earned = fee_amount - fee_burned` is an unguarded U256
subtraction: for every non-type-2 transaction with nonzero gas used and a
declared gas price strictly below the block base fee the computation
panics (arithmetic underflow) instead of returning a typed error, while
for type-2 transactions it never panics since the effective price is
`base_fee + priority_fee ≥ base_fee`. -/
theorem claim_C10_fee_underflow :
    (∀ (miner sender thash : String) (cur : Currency)
        (bhash rbh : Option String) (bnum pf : Option Nat)
        (bf gp gu ty : Nat),
      ty ≠ 2 → 0 < gu → gp < bf →
      get_fee_operations ⟨some miner, some bf, bhash, bnum⟩
          ⟨thash, sender, some ty, some gp, pf⟩ ⟨rbh, some gu⟩ cur =
        .panic "attempt to subtract with overflow") ∧
    (∀ (miner sender thash : String) (cur : Currency)
        (bhash rbh : Option String) (bnum pf : Option Nat) (bf gp gu : Nat)
        (m : String),
      get_fee_operations ⟨some miner, some bf, bhash, bnum⟩
          ⟨thash, sender, some 2, some gp, pf⟩ ⟨rbh, some gu⟩ cur ≠
        .panic m) := by
  constructor
  · intro miner sender thash cur bhash rbh bnum pf bf gp gu ty hty hgu hgp
    have hlt : gu * gp < gu * bf := mul_lt_mul_of_pos_left hgp hgu
    simp [get_fee_operations, hty, hlt]
  · intro miner sender thash cur bhash rbh bnum pf bf gp gu m
    have hle : ¬ gu * (bf + pf.getD 0) < gu * bf :=
      not_lt.mpr (Nat.mul_le_mul_left gu (Nat.le_add_right bf (pf.getD 0)))
    by_cases hb : ¬gu = 0 ∧ ¬bf = 0 <;>
      simp [get_fee_operations, hle, hb]

/-- C10 witness: a concrete legacy underflow and a concrete type-2
non-panic. -/
theorem claim_C10_fee_underflow_witness :
    get_fee_operations ⟨some "M", some 10, none, none⟩
        ⟨"h", "S", some 0, some 9, none⟩ ⟨none, some 21000⟩ ⟨"ETH", 18⟩ =
      .panic "attempt to subtract with overflow" ∧
    get_fee_operations ⟨some "M", some 10, none, none⟩
        ⟨"h", "S", some 2, some 9, some 5⟩ ⟨none, some 21000⟩ ⟨"ETH", 18⟩ ≠
      .panic "attempt to subtract with overflow" :=
  ⟨claim_C10_fee_underflow.1 "M" "S" "h" ⟨"ETH", 18⟩ none none none none
    10 9 21000 0 (by decide) (by decide) (by decide),
   claim_C10_fee_underflow.2 "M" "S" "h" ⟨"ETH", 18⟩ none none none
    (some 5) 10 9 21000 "attempt to subtract with overflow"⟩

end ChainConnectors
